import Mathlib

/-!
Shallow embedding of the rcoredump indexer and forwarder, translated from the
repository sources (bin/rcoredumpd/handlers.go, bin/rcoredumpd/index_request.go,
bin/rcoredumpd/store.go, the bleve index implementation, the cleanup process,
the analyze process, and pkg/elfx).  External effects (gzip decoding, file
system calls, the bleve engine, external debugger commands) are modelled as
explicit environments and association-list states; machine integers are Int or
Nat.
-/

namespace RCoredump

/-! ### Generic helpers: Go strings and association lists -/

/-- Character-list core of Go strings.HasPrefix: the first argument is the
pattern, the second the scanned list. -/
def hasPrefixL : List Char → List Char → Bool
  | [], _ => true
  | _ :: _, [] => false
  | p :: ps, c :: cs => p == c && hasPrefixL ps cs

/-- Models Go strings.HasPrefix on the character data of both strings. -/
def goHasPrefix (s pattern : String) : Bool :=
  hasPrefixL pattern.data s.data

/-- Models Go strings.TrimPrefix: drop the pattern when it heads the string,
return the string unchanged otherwise. -/
def goTrimPrefix (s pattern : String) : String :=
  if goHasPrefix s pattern then String.mk (s.data.drop pattern.data.length) else s

theorem strData_append (s t : String) : (s ++ t).data = s.data ++ t.data := by
  cases s; cases t; rfl

theorem strMk_data (s : String) : String.mk s.data = s := by
  cases s; rfl

theorem hasPrefixL_self_append (p rest : List Char) : hasPrefixL p (p ++ rest) = true := by
  induction p with
  | nil => rfl
  | cons c cs ih => simp [hasPrefixL, ih]

theorem goHasPrefix_append (pattern rest : String) :
    goHasPrefix (pattern ++ rest) pattern = true := by
  unfold goHasPrefix
  rw [strData_append]
  exact hasPrefixL_self_append _ _

theorem drop_length_append (l₁ l₂ : List Char) : (l₁ ++ l₂).drop l₁.length = l₂ := by
  induction l₁ with
  | nil => rfl
  | cons c cs ih => simp [ih]

theorem goTrimPrefix_append (pattern rest : String) :
    goTrimPrefix (pattern ++ rest) pattern = rest := by
  unfold goTrimPrefix
  rw [goHasPrefix_append, if_pos rfl, strData_append, drop_length_append, strMk_data]

/-- Association-list lookup, keyed on the first component. -/
def lookupA {α : Type} (l : List (String × α)) (k : String) : Option α :=
  (l.find? (fun p => p.1 == k)).map (fun p => p.2)

/-- Association-list upsert: replace the value when the key is present,
append otherwise.  Models both a Go map assignment and a content-addressed
file write (os.Create truncates the file at an existing path); reachable
states hold at most one entry per key. -/
def upsertA {α : Type} : List (String × α) → String → α → List (String × α)
  | [], k, v => [(k, v)]
  | p :: rest, k, v => if p.1 == k then (k, v) :: rest else p :: upsertA rest k v

/-- Number of entries stored under a key; a faithful file system holds at most
one file per path, and this counts the entries at one path. -/
def countKey {α : Type} (l : List (String × α)) (k : String) : Nat :=
  (l.filter (fun p => p.1 == k)).length

theorem lookupA_upsertA_self {α : Type} (l : List (String × α)) (k : String) (v : α) :
    lookupA (upsertA l k v) k = some v := by
  induction l with
  | nil => simp [upsertA, lookupA, List.find?]
  | cons q qs ih =>
    unfold upsertA
    cases hq : (q.1 == k) with
    | true => simp [lookupA, List.find?]
    | false => simpa [lookupA, List.find?, hq] using ih

theorem lookupA_upsertA_ne {α : Type} (l : List (String × α)) (k k' : String) (v : α)
    (h : k' ≠ k) : lookupA (upsertA l k v) k' = lookupA l k' := by
  have hk : (k == k') = false := by
    rw [beq_eq_false_iff_ne]
    exact fun hc => h hc.symm
  induction l with
  | nil => simp [upsertA, lookupA, List.find?, hk]
  | cons q qs ih =>
    unfold upsertA
    cases hq : (q.1 == k) with
    | true =>
      have hq' : q.1 = k := beq_iff_eq.mp hq
      simp [lookupA, List.find?, hk, hq']
    | false =>
      cases hq' : (q.1 == k') with
      | true => simp [lookupA, List.find?, hq']
      | false => simpa [lookupA, List.find?, hq'] using ih

theorem countKey_eq_zero_of_head_ne {α : Type} (q : String × α) (qs : List (String × α))
    (k : String) (h : countKey (q :: qs) k = 0) :
    (q.1 == k) = false ∧ countKey qs k = 0 := by
  unfold countKey at *
  cases hq : (q.1 == k) with
  | true => simp [List.filter, hq] at h
  | false => simpa [List.filter, hq] using h

theorem countKey_upsertA_of_ne_zero {α : Type} (l : List (String × α)) (k : String) (v : α)
    (h : countKey l k ≠ 0) : countKey (upsertA l k v) k = countKey l k := by
  induction l with
  | nil => exact absurd rfl h
  | cons q qs ih =>
    unfold upsertA
    cases hq : (q.1 == k) with
    | true =>
      have hq' : q.1 = k := beq_iff_eq.mp hq
      simp [countKey, List.filter, hq, hq']
    | false =>
      have hqs : countKey qs k ≠ 0 := by
        intro hz
        exact h (by simpa [countKey, List.filter, hq] using hz)
      unfold countKey at *
      simpa [List.filter, hq] using ih hqs

theorem countKey_upsertA_of_zero {α : Type} (l : List (String × α)) (k : String) (v : α)
    (h : countKey l k = 0) : countKey (upsertA l k v) k = 1 := by
  induction l with
  | nil => simp [upsertA, countKey, List.filter]
  | cons q qs ih =>
    obtain ⟨hq, hqs⟩ := countKey_eq_zero_of_head_ne q qs k h
    unfold upsertA
    rw [hq]
    simp only [Bool.false_eq_true, if_false]
    unfold countKey at *
    simpa [List.filter, hq] using ih hqs

/-- Models the xid generator used by the server: a fresh, process-unique
identifier for each allocation, modelled as a counter-indexed string. -/
def uidGen (n : Nat) : String :=
  String.mk (List.replicate n 'x')

theorem uidGen_injective : Function.Injective uidGen := by
  intro a b h
  have : (uidGen a).data.length = (uidGen b).data.length := by rw [h]
  simpa [uidGen] using this

/-! ### Wire model (pkg/rcoredump) -/

/-- Version of the server binary; in the source a build-time variable
defaulting to this constant (bin/rcoredumpd/main.go). -/
def Version : String := "N/C"

/-- Language tag constants from pkg/rcoredump. -/
def LangC : String := "C"

/-- Language tag constant for Go binaries. -/
def LangGo : String := "Go"

/-- Link record of the upload header: a shared library the forwarder tried to
resolve (fields used by index_request.go: Name, Found, Error; plus the
resolved path). -/
structure Link where
  name : String
  path : String
  found : Bool
  error : String
  deriving Repr, DecidableEq

/-- IndexRequest is the JSON header sent by the forwarder, from
pkg/rcoredump.  The Go time.Time is modelled as a Nat timestamp and the
metadata map as an association list. -/
structure IndexRequest where
  dumpedAt : Nat
  hostname : String
  includeExecutable : Bool
  executableHash : String
  executablePath : String
  metadata : List (String × String)
  forwarderVersion : String
  links : List Link
  deriving Repr, DecidableEq

/-- Go zero value of IndexRequest, the state of the decoder target before a
successful decode. -/
def IndexRequest.zero : IndexRequest :=
  ⟨0, "", false, "", "", [], "", []⟩

/-- Coredump document as indexed by the server, from pkg/rcoredump. -/
structure Coredump where
  dumpedAt : Nat
  executable : String
  executableHash : String
  executablePath : String
  executableSize : Int
  forwarderVersion : String
  hostname : String
  indexerVersion : String
  metadata : List (String × String)
  size : Int
  uid : String
  links : List Link
  analyzed : Bool
  analyzedAt : Nat
  lang : String
  trace : String
  deriving Repr, DecidableEq

/-- Go zero value of Coredump; struct literals fill only the named fields and
zero the rest. -/
def Coredump.zero : Coredump :=
  ⟨0, "", "", "", 0, "", "", "", [], 0, "", [], false, 0, "", ""⟩

/-! ### Go filepath.Base (used on executable_path by index_request.go) -/

/-- Models Go filepath.Base on a unix path: empty path gives a dot, trailing
slashes are stripped, then everything after the last slash is kept; an
all-slash path gives the root. -/
def baseName (s : String) : String :=
  if s.data.isEmpty then "."
  else
    let stripped := (s.data.reverse.dropWhile (fun c => c == '/')).reverse
    let base := (stripped.reverse.takeWhile (fun c => !(c == '/'))).reverse
    if base.isEmpty then "/" else String.mk base

/-! ### Server state shared by the handler models -/

/-- State of the indexer process visible to the embedded handlers: the uid
allocation counter, the document-level view of the bleve index (keyed by
uid), and the file store namespaces (cores keyed by uid, executables keyed by
hash, both carrying the stored size). -/
structure ServerState where
  counter : Nat
  docs : List (String × Coredump)
  cores : List (String × Int)
  executables : List (String × Int)
  deriving Repr, DecidableEq

/-! ### searchCore handler (bin/rcoredumpd/handlers.go) and the index search
boundary (BleveIndex.Search) -/

/-- Accumulator loop for atoi: consume decimal digits, fail on anything
else. -/
def parseDigits : List Char → Nat → Option Nat
  | [], acc => some acc
  | c :: cs, acc =>
    if c.isDigit then parseDigits cs (acc * 10 + (c.toNat - 48)) else none

/-- Models Go strconv.Atoi for the handler's size and from parameters: an
optional sign followed by at least one decimal digit. -/
def atoi (s : String) : Except String Int :=
  match s.data with
  | [] => Except.error "invalid syntax"
  | c :: rest =>
    if c == '-' then
      match rest, parseDigits rest 0 with
      | _ :: _, some n => Except.ok (-(n : Int))
      | _, _ => Except.error "invalid syntax"
    else if c == '+' then
      match rest, parseDigits rest 0 with
      | _ :: _, some n => Except.ok ((n : Int))
      | _, _ => Except.error "invalid syntax"
    else
      match parseDigits (c :: rest) 0 with
      | some n => Except.ok ((n : Int))
      | none => Except.error "invalid syntax"

/-- Sort key computed by BleveIndex.Search: a descending order is applied by
prefixing the sort field with a minus sign before handing it to bleve. -/
def searchSortKey (sort order : String) : String :=
  if order == "desc" then "-" ++ sort else sort

/-- Search request as it reaches the bleve engine inside BleveIndex.Search:
query string, the SortBy key, and the pagination window. -/
structure BleveSearchRequest where
  query : String
  sortBy : String
  size : Int
  fromIdx : Int
  deriving Repr, DecidableEq

/-- Builds the bleve request from the arguments of Index.Search, from the
bleve index implementation. -/
def bleveSearchRequest (q sort order : String) (size fromIdx : Int) : BleveSearchRequest :=
  ⟨q, searchSortKey sort order, size, fromIdx⟩

/-- Observable outcome of the searchCore handler: either a 400 rejection with
its message, or the request passed to the index. -/
inductive SearchOutcome where
  | badRequest (msg : String)
  | ok (req : BleveSearchRequest)
  deriving Repr, DecidableEq

/-- Models service.searchCore from bin/rcoredumpd/handlers.go.  Each argument
is the raw FormValue of the query parameter, the empty string when absent;
validation and defaulting follow the source line by line. -/
def searchCore (q sort order size fromv : String) : SearchOutcome :=
  let q := if q == "" then "*" else q
  let sort := if sort == "" then "dumped_at" else sort
  if sort == "dumped_at" || sort == "hostname" then
    let order := if order == "" then "desc" else order
    if order == "asc" || order == "desc" then
      let rawSize := if size == "" then "50" else size
      match atoi rawSize with
      | Except.error e => SearchOutcome.badRequest ("invalid size parameter: " ++ e)
      | Except.ok sz =>
        let rawFrom := if fromv == "" then "0" else fromv
        match atoi rawFrom with
        | Except.error e => SearchOutcome.badRequest ("invalid from parameter: " ++ e)
        | Except.ok fr => SearchOutcome.ok (bleveSearchRequest q sort order sz fr)
    else SearchOutcome.badRequest ("invalid sort order " ++ order)
  else SearchOutcome.badRequest ("invalid sort field " ++ sort)

/-- C6: For every GET /cores request, absent parameters default to q equals
star, sort dumped_at, order desc, size 50, from 0; a sort value outside
the pair dumped_at, hostname or an order value outside asc, desc is rejected
at the handler boundary; and at the index boundary a descending order is
applied by prefixing the sort key with a minus sign. -/
theorem searchCore_defaults_and_validation :
    searchCore "" "" "" "" "" = SearchOutcome.ok (bleveSearchRequest "*" "dumped_at" "desc" 50 0)
    ∧ (∀ q s o sz f, s ≠ "" → s ≠ "dumped_at" → s ≠ "hostname" →
        searchCore q s o sz f = SearchOutcome.badRequest ("invalid sort field " ++ s))
    ∧ (∀ q s o sz f, (s = "" ∨ s = "dumped_at" ∨ s = "hostname") →
        o ≠ "" → o ≠ "asc" → o ≠ "desc" →
        searchCore q s o sz f = SearchOutcome.badRequest ("invalid sort order " ++ o))
    ∧ (∀ s, searchSortKey s "desc" = "-" ++ s) := by
  refine ⟨by decide, ?_, ?_, ?_⟩
  · intro q s o sz f hs hd hh
    have hne : (s == "") = false := beq_eq_false_iff_ne.mpr hs
    have h1 : (s == "dumped_at") = false := beq_eq_false_iff_ne.mpr hd
    have h2 : (s == "hostname") = false := beq_eq_false_iff_ne.mpr hh
    simp [searchCore, hne, h1, h2]
  · intro q s o sz f hsv ho ha hd
    have hone : (o == "") = false := beq_eq_false_iff_ne.mpr ho
    have h1 : (o == "asc") = false := beq_eq_false_iff_ne.mpr ha
    have h2 : (o == "desc") = false := beq_eq_false_iff_ne.mpr hd
    rcases hsv with rfl | rfl | rfl <;> simp [searchCore, hone, h1, h2]
  · intro s
    simp [searchSortKey]

/-- Witness for C6: the validation clauses applied at concrete inputs. -/
theorem searchCore_defaults_and_validation_witness :
    searchCore "*" "size" "desc" "" "" = SearchOutcome.badRequest ("invalid sort field " ++ "size")
    ∧ searchCore "*" "hostname" "up" "" "" = SearchOutcome.badRequest ("invalid sort order " ++ "up") := by
  refine ⟨?_, ?_⟩
  · exact searchCore_defaults_and_validation.2.1 "*" "size" "desc" "" ""
      (by decide) (by decide) (by decide)
  · exact searchCore_defaults_and_validation.2.2.1 "*" "hostname" "up" "" ""
      (Or.inr (Or.inr rfl)) (by decide) (by decide) (by decide)

/-! ### getCore handler (bin/rcoredumpd/handlers.go) -/

/-- HTTP response observed by the client: status code and body text. -/
structure HttpResponse where
  status : Nat
  body : String
  deriving Repr, DecidableEq

/-- Models service.getCore from bin/rcoredumpd/handlers.go: open the core
file from the store; any open error (including a missing file) is written as
a 500 with the error text, otherwise the file is served. -/
def getCore (st : ServerState) (uid : String) : HttpResponse :=
  match lookupA st.cores uid with
  | none => ⟨500, "open cores " ++ uid ++ ": no such file or directory"⟩
  | some _ => ⟨200, ""⟩

/-- C9: For every GET /cores/:uid request where no core file with that uid
exists in the store, the handler responds with HTTP 500 carrying the open
error, not with 404. -/
theorem getCore_missing_file_is_500 (st : ServerState) (uid : String)
    (h : lookupA st.cores uid = none) :
    (getCore st uid).status = 500
    ∧ (getCore st uid).body = "open cores " ++ uid ++ ": no such file or directory"
    ∧ (getCore st uid).status ≠ 404 := by
  simp [getCore, h]

/-- Witness for C9: a concrete empty store. -/
theorem getCore_missing_file_is_500_witness :
    (getCore ⟨0, [], [], []⟩ "u1").status = 500 ∧
    (getCore ⟨0, [], [], []⟩ "u1").status ≠ 404 := by
  have h := getCore_missing_file_is_500 ⟨0, [], [], []⟩ "u1" (by decide)
  exact ⟨h.1, h.2.2⟩

/-! ### Upload pipeline (bin/rcoredumpd/index_request.go driven by
service.indexCore in bin/rcoredumpd/handlers.go) -/

instance {α β : Type} [DecidableEq α] [DecidableEq β] : DecidableEq (Except α β) := by
  intro a b
  cases a <;> cases b
  case error.error x y =>
    exact if h : x = y then isTrue (by rw [h]) else isFalse (by intro hc; cases hc; exact h rfl)
  case error.ok x y => exact isFalse (by intro hc; cases hc)
  case ok.error x y => exact isFalse (by intro hc; cases hc)
  case ok.ok x y =>
    exact if h : x = y then isTrue (by rw [h]) else isFalse (by intro hc; cases hc; exact h rfl)

/-- Outcomes of the external effects touched by one POST /cores request:
gzip preparation for each segment, the JSON header decode, the stream copies
into the store, and the bleve index write.  An error value carries the
message the Go call would return. -/
structure IndexEnv where
  gzipHeader : Option String
  header : Except String IndexRequest
  gzipCore : Option String
  storeCore : Except String Int
  gzipExe : Option String
  storeExe : Except String Int
  indexErr : Option String
  deriving Repr, DecidableEq

/-- The indexRequest accumulator threaded through the pipeline stages, from
index_request.go. -/
structure IndexReqProc where
  uid : String
  req : IndexRequest
  coredump : Coredump
  err : Option String
  deriving Repr, DecidableEq

/-- indexRequest.init: allocate a fresh uid and seed the Coredump with the
indexer version and the uid; the request body has not been read yet. -/
def irInit (st : ServerState) : IndexReqProc × ServerState :=
  let uid := uidGen st.counter
  (⟨uid, IndexRequest.zero,
    { Coredump.zero with indexerVersion := Version, uid := uid }, none⟩,
   { st with counter := st.counter + 1 })

/-- indexRequest.read: prepare the gzip reader, decode the JSON header into
req, then copy the header fields onto the Coredump; the executable field is
the basename of the executable path. -/
def irRead (env : IndexEnv) (p : IndexReqProc) (st : ServerState) :
    IndexReqProc × ServerState :=
  match p.err with
  | some _ => (p, st)
  | none =>
    match env.gzipHeader with
    | some e => ({ p with err := some ("preparing gzip reader: " ++ e) }, st)
    | none =>
      match env.header with
      | Except.error e => ({ p with err := some ("parsing header: " ++ e) }, st)
      | Except.ok q =>
        ({ p with
            req := q,
            coredump := { p.coredump with
              dumpedAt := q.dumpedAt,
              executable := baseName q.executablePath,
              executableHash := q.executableHash,
              executablePath := q.executablePath,
              forwarderVersion := q.forwarderVersion,
              hostname := q.hostname,
              metadata := q.metadata,
              links := q.links } }, st)

/-- indexRequest.readCore: prepare the gzip reader and stream the core
segment into the store under the uid; on a copy error the partially written
file remains and the recorded size is zero. -/
def irReadCore (env : IndexEnv) (p : IndexReqProc) (st : ServerState) :
    IndexReqProc × ServerState :=
  match p.err with
  | some _ => (p, st)
  | none =>
    match env.gzipCore with
    | some e => ({ p with err := some ("preparing gzip reader: " ++ e) }, st)
    | none =>
      match env.storeCore with
      | Except.error e =>
        ({ p with err := some e, coredump := { p.coredump with size := 0 } },
         { st with cores := upsertA st.cores p.uid 0 })
      | Except.ok n =>
        ({ p with coredump := { p.coredump with size := n } },
         { st with cores := upsertA st.cores p.uid n })

/-- indexRequest.readExecutable: prepare the gzip reader and stream the
executable segment into the store under the header hash. -/
def irReadExecutable (env : IndexEnv) (p : IndexReqProc) (st : ServerState) :
    IndexReqProc × ServerState :=
  match p.err with
  | some _ => (p, st)
  | none =>
    match env.gzipExe with
    | some e => ({ p with err := some ("preparing gzip reader: " ++ e) }, st)
    | none =>
      match env.storeExe with
      | Except.error e =>
        ({ p with err := some e, coredump := { p.coredump with executableSize := 0 } },
         { st with executables := upsertA st.executables p.req.executableHash 0 })
      | Except.ok n =>
        ({ p with coredump := { p.coredump with executableSize := n } },
         { st with executables := upsertA st.executables p.req.executableHash n })

/-- indexRequest.computeExecutableSize: used when the executable was not
sent; open the already-stored file and record its size, an error if it is
missing. -/
def irComputeExecutableSize (p : IndexReqProc) (st : ServerState) :
    IndexReqProc × ServerState :=
  match p.err with
  | some _ => (p, st)
  | none =>
    match lookupA st.executables p.req.executableHash with
    | none =>
      ({ p with err := some "opening executable file: no such file or directory" }, st)
    | some n =>
      ({ p with coredump := { p.coredump with executableSize := n } }, st)

/-- indexRequest.indexCore: write the assembled Coredump into the index,
keyed by its uid. -/
def irIndexCore (env : IndexEnv) (p : IndexReqProc) (st : ServerState) :
    IndexReqProc × ServerState :=
  match p.err with
  | some _ => (p, st)
  | none =>
    match env.indexErr with
    | some e => ({ p with err := some ("indexing core: " ++ e) }, st)
    | none => (p, { st with docs := upsertA st.docs p.coredump.uid p.coredump })

/-- indexRequest.close: drain and close the body; no observable state
change in the model. -/
def irClose (p : IndexReqProc) (st : ServerState) : IndexReqProc × ServerState :=
  (p, st)

/-- The stage sequence of service.indexCore up to, but excluding, the index
write: init, read, readCore, then readExecutable or computeExecutableSize
depending on the decoded header. -/
def runIndexFront (env : IndexEnv) (st : ServerState) : IndexReqProc × ServerState :=
  let a := irInit st
  let b := irRead env a.1 a.2
  let c := irReadCore env b.1 b.2
  if b.1.req.includeExecutable then irReadExecutable env c.1 c.2
  else irComputeExecutableSize c.1 c.2

/-- The full stage sequence run by service.indexCore before inspecting the
error. -/
def runIndexPipeline (env : IndexEnv) (st : ServerState) : IndexReqProc × ServerState :=
  let d := runIndexFront env st
  let e := irIndexCore env d.1 d.2
  irClose e.1 e.2

/-- Result of the POST /cores handler: the response, what was enqueued on
the analysis channel, and the server state left behind. -/
structure IndexHandlerResult where
  response : HttpResponse
  enqueued : Option Coredump
  state : ServerState
  deriving Repr, DecidableEq

/-- Models service.indexCore from bin/rcoredumpd/handlers.go: run the
pipeline; on any recorded error answer 500 with the error text and skip the
analysis enqueue, otherwise enqueue the coredump and answer 200. -/
def indexCoreHandler (env : IndexEnv) (st : ServerState) : IndexHandlerResult :=
  let r := runIndexPipeline env st
  match r.1.err with
  | some e => ⟨⟨500, e⟩, none, r.2⟩
  | none => ⟨⟨200, ""⟩, some r.1.coredump, r.2⟩

theorem irRead_err_skip (env : IndexEnv) (p : IndexReqProc) (st : ServerState)
    (h : p.err.isSome = true) : irRead env p st = (p, st) := by
  obtain ⟨e, he⟩ := Option.isSome_iff_exists.mp h
  simp [irRead, he]

theorem irReadCore_err_skip (env : IndexEnv) (p : IndexReqProc) (st : ServerState)
    (h : p.err.isSome = true) : irReadCore env p st = (p, st) := by
  obtain ⟨e, he⟩ := Option.isSome_iff_exists.mp h
  simp [irReadCore, he]

theorem irReadExecutable_err_skip (env : IndexEnv) (p : IndexReqProc) (st : ServerState)
    (h : p.err.isSome = true) : irReadExecutable env p st = (p, st) := by
  obtain ⟨e, he⟩ := Option.isSome_iff_exists.mp h
  simp [irReadExecutable, he]

theorem irComputeExecutableSize_err_skip (p : IndexReqProc) (st : ServerState)
    (h : p.err.isSome = true) : irComputeExecutableSize p st = (p, st) := by
  obtain ⟨e, he⟩ := Option.isSome_iff_exists.mp h
  simp [irComputeExecutableSize, he]

theorem irIndexCore_err_skip (env : IndexEnv) (p : IndexReqProc) (st : ServerState)
    (h : p.err.isSome = true) : irIndexCore env p st = (p, st) := by
  obtain ⟨e, he⟩ := Option.isSome_iff_exists.mp h
  simp [irIndexCore, he]

theorem irRead_snd (env : IndexEnv) (p : IndexReqProc) (st : ServerState) :
    (irRead env p st).2 = st := by
  unfold irRead
  cases p.err with
  | some e => rfl
  | none =>
    cases env.gzipHeader with
    | some e => rfl
    | none =>
      cases env.header with
      | error e => rfl
      | ok q => rfl

theorem irReadCore_docs (env : IndexEnv) (p : IndexReqProc) (st : ServerState) :
    (irReadCore env p st).2.docs = st.docs := by
  unfold irReadCore
  cases p.err with
  | some e => rfl
  | none =>
    cases env.gzipCore with
    | some e => rfl
    | none =>
      cases env.storeCore with
      | error e => rfl
      | ok n => rfl

theorem irReadExecutable_docs (env : IndexEnv) (p : IndexReqProc) (st : ServerState) :
    (irReadExecutable env p st).2.docs = st.docs := by
  unfold irReadExecutable
  cases p.err with
  | some e => rfl
  | none =>
    cases env.gzipExe with
    | some e => rfl
    | none =>
      cases env.storeExe with
      | error e => rfl
      | ok n => rfl

theorem irComputeExecutableSize_snd (p : IndexReqProc) (st : ServerState) :
    (irComputeExecutableSize p st).2 = st := by
  unfold irComputeExecutableSize
  cases p.err with
  | some e => rfl
  | none =>
    cases lookupA st.executables p.req.executableHash with
    | none => rfl
    | some n => rfl

theorem irIndexCore_err_docs (env : IndexEnv) (p : IndexReqProc) (st : ServerState)
    (h : (irIndexCore env p st).1.err.isSome = true) :
    (irIndexCore env p st).2.docs = st.docs := by
  unfold irIndexCore at h ⊢
  cases hp : p.err with
  | some e => rfl
  | none =>
    cases hi : env.indexErr with
    | some e => rfl
    | none => rw [hp] at h; rw [hi] at h; simp [hp] at h

theorem runIndexFront_docs (env : IndexEnv) (st : ServerState) :
    (runIndexFront env st).2.docs = st.docs := by
  unfold runIndexFront
  simp only []
  split
  · rw [irReadExecutable_docs, irReadCore_docs, irRead_snd]; rfl
  · rw [irComputeExecutableSize_snd, irReadCore_docs, irRead_snd]; rfl

/-- A pipeline ending in an error never wrote the index: the only index
write, in irIndexCore, happens on the error-free path. -/
theorem runIndexPipeline_err_docs (env : IndexEnv) (st : ServerState)
    (h : (runIndexPipeline env st).1.err.isSome = true) :
    (runIndexPipeline env st).2.docs = st.docs := by
  unfold runIndexPipeline irClose at h ⊢
  exact (irIndexCore_err_docs env _ _ h).trans (runIndexFront_docs env st)

theorem irRead_keeps_identity (env : IndexEnv) (p : IndexReqProc) (st : ServerState) :
    (irRead env p st).1.coredump.uid = p.coredump.uid
    ∧ (irRead env p st).1.coredump.indexerVersion = p.coredump.indexerVersion := by
  unfold irRead
  cases p.err with
  | some e => exact ⟨rfl, rfl⟩
  | none =>
    cases env.gzipHeader with
    | some e => exact ⟨rfl, rfl⟩
    | none =>
      cases env.header with
      | error e => exact ⟨rfl, rfl⟩
      | ok q => exact ⟨rfl, rfl⟩

theorem irReadCore_keeps_identity (env : IndexEnv) (p : IndexReqProc) (st : ServerState) :
    (irReadCore env p st).1.coredump.uid = p.coredump.uid
    ∧ (irReadCore env p st).1.coredump.indexerVersion = p.coredump.indexerVersion
    ∧ (irReadCore env p st).2.counter = st.counter := by
  unfold irReadCore
  cases p.err with
  | some e => exact ⟨rfl, rfl, rfl⟩
  | none =>
    cases env.gzipCore with
    | some e => exact ⟨rfl, rfl, rfl⟩
    | none =>
      cases env.storeCore with
      | error e => exact ⟨rfl, rfl, rfl⟩
      | ok n => exact ⟨rfl, rfl, rfl⟩

theorem irReadExecutable_keeps_identity (env : IndexEnv) (p : IndexReqProc) (st : ServerState) :
    (irReadExecutable env p st).1.coredump.uid = p.coredump.uid
    ∧ (irReadExecutable env p st).1.coredump.indexerVersion = p.coredump.indexerVersion
    ∧ (irReadExecutable env p st).2.counter = st.counter := by
  unfold irReadExecutable
  cases p.err with
  | some e => exact ⟨rfl, rfl, rfl⟩
  | none =>
    cases env.gzipExe with
    | some e => exact ⟨rfl, rfl, rfl⟩
    | none =>
      cases env.storeExe with
      | error e => exact ⟨rfl, rfl, rfl⟩
      | ok n => exact ⟨rfl, rfl, rfl⟩

theorem irComputeExecutableSize_keeps_identity (p : IndexReqProc) (st : ServerState) :
    (irComputeExecutableSize p st).1.coredump.uid = p.coredump.uid
    ∧ (irComputeExecutableSize p st).1.coredump.indexerVersion = p.coredump.indexerVersion := by
  unfold irComputeExecutableSize
  cases p.err with
  | some e => exact ⟨rfl, rfl⟩
  | none =>
    cases lookupA st.executables p.req.executableHash with
    | none => exact ⟨rfl, rfl⟩
    | some n => exact ⟨rfl, rfl⟩

theorem irIndexCore_keeps_identity (env : IndexEnv) (p : IndexReqProc) (st : ServerState) :
    (irIndexCore env p st).1.coredump = p.coredump
    ∧ (irIndexCore env p st).2.counter = st.counter := by
  unfold irIndexCore
  cases p.err with
  | some e => exact ⟨rfl, rfl⟩
  | none =>
    cases env.indexErr with
    | some e => exact ⟨rfl, rfl⟩
    | none => exact ⟨rfl, rfl⟩

/-- The uid and indexer version of the assembled document are fixed by
irInit and survive every later stage, whatever the request body holds. -/
theorem runIndexPipeline_identity (env : IndexEnv) (st : ServerState) :
    (runIndexPipeline env st).1.coredump.uid = uidGen st.counter
    ∧ (runIndexPipeline env st).1.coredump.indexerVersion = Version := by
  unfold runIndexPipeline irClose runIndexFront
  simp only []
  constructor
  · rw [(irIndexCore_keeps_identity _ _ _).1]
    split
    · rw [(irReadExecutable_keeps_identity _ _ _).1, (irReadCore_keeps_identity _ _ _).1,
        (irRead_keeps_identity _ _ _).1]
      rfl
    · rw [(irComputeExecutableSize_keeps_identity _ _).1, (irReadCore_keeps_identity _ _ _).1,
        (irRead_keeps_identity _ _ _).1]
      rfl
  · rw [(irIndexCore_keeps_identity _ _ _).1]
    split
    · rw [(irReadExecutable_keeps_identity _ _ _).2.1, (irReadCore_keeps_identity _ _ _).2.1,
        (irRead_keeps_identity _ _ _).2]
      rfl
    · rw [(irComputeExecutableSize_keeps_identity _ _).2, (irReadCore_keeps_identity _ _ _).2.1,
        (irRead_keeps_identity _ _ _).2]
      rfl

/-- The pipeline always advances the uid allocation counter by one. -/
theorem runIndexPipeline_counter (env : IndexEnv) (st : ServerState) :
    (runIndexPipeline env st).2.counter = st.counter + 1 := by
  unfold runIndexPipeline irClose runIndexFront
  simp only []
  rw [(irIndexCore_keeps_identity _ _ _).2]
  split
  · rw [(irReadExecutable_keeps_identity _ _ _).2.2, (irReadCore_keeps_identity _ _ _).2.2,
      irRead_snd]
    rfl
  · rw [irComputeExecutableSize_snd, (irReadCore_keeps_identity _ _ _).2.2, irRead_snd]
    rfl

/-- C2: For every POST /cores request in which any pipeline stage records an
error, all subsequent stages are skipped, the coredump document is not
indexed, the handler responds HTTP 500 with the error text, and nothing is
enqueued for analysis. -/
theorem indexCore_error_short_circuits (env : IndexEnv) (st : ServerState) (e : String)
    (h : (runIndexPipeline env st).1.err = some e) :
    (∀ p s, p.err.isSome = true →
        irRead env p s = (p, s) ∧ irReadCore env p s = (p, s)
        ∧ irReadExecutable env p s = (p, s) ∧ irComputeExecutableSize p s = (p, s)
        ∧ irIndexCore env p s = (p, s))
    ∧ (indexCoreHandler env st).response = ⟨500, e⟩
    ∧ (indexCoreHandler env st).enqueued = none
    ∧ (indexCoreHandler env st).state.docs = st.docs := by
  refine ⟨fun p s hp => ⟨irRead_err_skip env p s hp, irReadCore_err_skip env p s hp,
    irReadExecutable_err_skip env p s hp, irComputeExecutableSize_err_skip p s hp,
    irIndexCore_err_skip env p s hp⟩, ?_, ?_, ?_⟩
  · simp [indexCoreHandler, h]
  · simp [indexCoreHandler, h]
  · have hs : (runIndexPipeline env st).1.err.isSome = true := by rw [h]; rfl
    have hd := runIndexPipeline_err_docs env st hs
    simp [indexCoreHandler, h, hd]

/-- Witness for C2: a request whose header fails to decode is answered with
500 and the parse error, indexes nothing and enqueues nothing. -/
theorem indexCore_error_short_circuits_witness :
    (indexCoreHandler ⟨none, Except.error "bad json", none, Except.ok 5, none,
        Except.ok 7, none⟩ ⟨0, [], [], []⟩).response = ⟨500, "parsing header: bad json"⟩
    ∧ (indexCoreHandler ⟨none, Except.error "bad json", none, Except.ok 5, none,
        Except.ok 7, none⟩ ⟨0, [], [], []⟩).enqueued = none := by
  have h := indexCore_error_short_circuits
    ⟨none, Except.error "bad json", none, Except.ok 5, none, Except.ok 7, none⟩
    ⟨0, [], [], []⟩ "parsing header: bad json" (by decide)
  exact ⟨h.2.1, h.2.2.1⟩

/-- C10: For every POST /cores request, the indexed document uid and
indexer_version are assigned by the server before the request body is
decoded, the executable field equals the basename of the header's
executable_path, and no value in the request body can set or override uid or
indexer_version. -/
theorem indexCore_server_assigned_fields (env : IndexEnv) (st : ServerState) :
    (irInit st).1.coredump.uid = uidGen st.counter
    ∧ (irInit st).1.coredump.indexerVersion = Version
    ∧ (∀ q, env.header = Except.ok q →
        (irRead env (irInit st).1 (irInit st).2).1.coredump.uid = uidGen st.counter
        ∧ (irRead env (irInit st).1 (irInit st).2).1.coredump.indexerVersion = Version
        ∧ (env.gzipHeader = none →
            (irRead env (irInit st).1 (irInit st).2).1.coredump.executable
              = baseName q.executablePath))
    ∧ (runIndexPipeline env st).1.coredump.uid = uidGen st.counter
    ∧ (runIndexPipeline env st).1.coredump.indexerVersion = Version := by
  refine ⟨rfl, rfl, ?_, (runIndexPipeline_identity env st).1,
    (runIndexPipeline_identity env st).2⟩
  intro q hq
  refine ⟨(irRead_keeps_identity env _ _).1, (irRead_keeps_identity env _ _).2, ?_⟩
  intro hg
  simp [irInit, irRead, hq, hg]

/-- Witness for C10: a concrete upload header with executable path /bin/x
yields the basename x while uid and indexer version stay server-assigned. -/
theorem indexCore_server_assigned_fields_witness :
    (irRead ⟨none, Except.ok ⟨5, "h1", true, "aa", "/bin/x", [], "v1", []⟩, none,
        Except.ok 1, none, Except.ok 1, none⟩
      (irInit ⟨0, [], [], []⟩).1 (irInit ⟨0, [], [], []⟩).2).1.coredump.executable
      = baseName "/bin/x"
    ∧ (irInit (⟨0, [], [], []⟩ : ServerState)).1.coredump.uid = uidGen 0 := by
  have h := indexCore_server_assigned_fields
    ⟨none, Except.ok ⟨5, "h1", true, "aa", "/bin/x", [], "v1", []⟩, none,
      Except.ok 1, none, Except.ok 1, none⟩ ⟨0, [], [], []⟩
  exact ⟨(h.2.2.1 _ rfl).2.2 rfl, h.1⟩

theorem uidGen_ne_succ (n : Nat) : uidGen n ≠ uidGen (n + 1) := by
  intro h
  have := uidGen_injective h
  omega

/-- The document assembled by a successful upload of header q under a fresh
uid, with core size n and executable size m, as built by irInit and
irRead and completed by the store stages. -/
def mkDoc (q : IndexRequest) (uid : String) (n m : Int) : Coredump :=
  { Coredump.zero with
      indexerVersion := Version, uid := uid,
      dumpedAt := q.dumpedAt, executable := baseName q.executablePath,
      executableHash := q.executableHash, executablePath := q.executablePath,
      forwarderVersion := q.forwarderVersion, hostname := q.hostname,
      metadata := q.metadata, links := q.links,
      size := n, executableSize := m }

/-- Evaluation of a fully successful upload that carries the executable. -/
theorem indexCoreHandler_success_include (env : IndexEnv) (st : ServerState)
    (q : IndexRequest) (n m : Int)
    (hg : env.gzipHeader = none) (hd : env.header = Except.ok q)
    (hgc : env.gzipCore = none) (hsc : env.storeCore = Except.ok n)
    (hge : env.gzipExe = none) (hse : env.storeExe = Except.ok m)
    (hie : env.indexErr = none) (hinc : q.includeExecutable = true) :
    indexCoreHandler env st
      = ⟨⟨200, ""⟩, some (mkDoc q (uidGen st.counter) n m),
         ⟨st.counter + 1,
          upsertA st.docs (uidGen st.counter) (mkDoc q (uidGen st.counter) n m),
          upsertA st.cores (uidGen st.counter) n,
          upsertA st.executables q.executableHash m⟩⟩ := by
  simp [indexCoreHandler, runIndexPipeline, runIndexFront, irInit, irRead, irReadCore,
    irReadExecutable, irClose, irIndexCore, mkDoc, hg, hd, hgc, hsc, hge, hse, hie, hinc]

/-- Evaluation of a fully successful upload that does not carry the
executable: the size is taken from the already-stored blob and the
executables namespace is left untouched. -/
theorem indexCoreHandler_success_stat (env : IndexEnv) (st : ServerState)
    (q : IndexRequest) (n m : Int)
    (hg : env.gzipHeader = none) (hd : env.header = Except.ok q)
    (hgc : env.gzipCore = none) (hsc : env.storeCore = Except.ok n)
    (hie : env.indexErr = none) (hinc : q.includeExecutable = false)
    (hlook : lookupA st.executables q.executableHash = some m) :
    indexCoreHandler env st
      = ⟨⟨200, ""⟩, some (mkDoc q (uidGen st.counter) n m),
         ⟨st.counter + 1,
          upsertA st.docs (uidGen st.counter) (mkDoc q (uidGen st.counter) n m),
          upsertA st.cores (uidGen st.counter) n,
          st.executables⟩⟩ := by
  simp [indexCoreHandler, runIndexPipeline, runIndexFront, irInit, irRead, irReadCore,
    irComputeExecutableSize, irClose, irIndexCore, mkDoc, hg, hd, hgc, hsc, hie, hinc, hlook]

/-- C8: For every pair of successful uploads carrying the same
executable_hash, the two requests produce two indexed documents with
distinct server-generated uids, while the store holds exactly one executable
file, at the single path keyed by that hash. -/
theorem upload_twice_single_executable (env1 env2 : IndexEnv) (st : ServerState)
    (q1 q2 : IndexRequest) (hash : String) (n1 m1 n2 m2 : Int)
    (hg1 : env1.gzipHeader = none) (hd1 : env1.header = Except.ok q1)
    (hgc1 : env1.gzipCore = none) (hsc1 : env1.storeCore = Except.ok n1)
    (hge1 : env1.gzipExe = none) (hse1 : env1.storeExe = Except.ok m1)
    (hie1 : env1.indexErr = none)
    (hinc1 : q1.includeExecutable = true) (hh1 : q1.executableHash = hash)
    (hg2 : env2.gzipHeader = none) (hd2 : env2.header = Except.ok q2)
    (hgc2 : env2.gzipCore = none) (hsc2 : env2.storeCore = Except.ok n2)
    (hge2 : env2.gzipExe = none) (hse2 : env2.storeExe = Except.ok m2)
    (hie2 : env2.indexErr = none)
    (hh2 : q2.executableHash = hash)
    (hcount : countKey st.executables hash = 0) :
    ∃ c1 c2,
      (indexCoreHandler env1 st).enqueued = some c1
      ∧ (indexCoreHandler env2 (indexCoreHandler env1 st).state).enqueued = some c2
      ∧ c1.uid ≠ c2.uid
      ∧ lookupA (indexCoreHandler env2 (indexCoreHandler env1 st).state).state.docs c1.uid
          = some c1
      ∧ lookupA (indexCoreHandler env2 (indexCoreHandler env1 st).state).state.docs c2.uid
          = some c2
      ∧ countKey
          (indexCoreHandler env2 (indexCoreHandler env1 st).state).state.executables hash
          = 1 := by
  subst hh1
  have h1 := indexCoreHandler_success_include env1 st q1 n1 m1
    hg1 hd1 hgc1 hsc1 hge1 hse1 hie1 hinc1
  have hcount1 : countKey (upsertA st.executables q1.executableHash m1) q1.executableHash
      = 1 := countKey_upsertA_of_zero _ _ _ hcount
  cases hinc2 : q2.includeExecutable with
  | true =>
    have h2 := indexCoreHandler_success_include env2 (indexCoreHandler env1 st).state q2 n2 m2
      hg2 hd2 hgc2 hsc2 hge2 hse2 hie2 hinc2
    rw [h1] at h2
    refine ⟨mkDoc q1 (uidGen st.counter) n1 m1,
      mkDoc q2 (uidGen (st.counter + 1)) n2 m2, ?_, ?_, ?_, ?_, ?_, ?_⟩
    · rw [h1]
    · rw [h1, h2]
    · exact uidGen_ne_succ st.counter
    · rw [h1, h2]
      show lookupA (upsertA _ (uidGen (st.counter + 1)) _) (uidGen st.counter) = _
      rw [lookupA_upsertA_ne _ _ _ _ (uidGen_ne_succ st.counter),
        lookupA_upsertA_self]
    · rw [h1, h2]
      exact lookupA_upsertA_self _ _ _
    · rw [h1, h2]
      show countKey (upsertA (upsertA st.executables q1.executableHash m1)
        q2.executableHash m2) q1.executableHash = 1
      rw [hh2]
      rw [countKey_upsertA_of_ne_zero _ _ _ (by rw [hcount1]; omega)]
      exact hcount1
  | false =>
    have hlook : lookupA (indexCoreHandler env1 st).state.executables q2.executableHash
        = some m1 := by
      rw [h1]
      show lookupA (upsertA st.executables q1.executableHash m1) q2.executableHash = some m1
      rw [hh2]
      exact lookupA_upsertA_self _ _ _
    have h2 := indexCoreHandler_success_stat env2 (indexCoreHandler env1 st).state q2 n2 m1
      hg2 hd2 hgc2 hsc2 hie2 hinc2 hlook
    rw [h1] at h2
    refine ⟨mkDoc q1 (uidGen st.counter) n1 m1,
      mkDoc q2 (uidGen (st.counter + 1)) n2 m1, ?_, ?_, ?_, ?_, ?_, ?_⟩
    · rw [h1]
    · rw [h1, h2]
    · exact uidGen_ne_succ st.counter
    · rw [h1, h2]
      show lookupA (upsertA _ (uidGen (st.counter + 1)) _) (uidGen st.counter) = _
      rw [lookupA_upsertA_ne _ _ _ _ (uidGen_ne_succ st.counter),
        lookupA_upsertA_self]
    · rw [h1, h2]
      exact lookupA_upsertA_self _ _ _
    · rw [h1, h2]
      exact hcount1

/-- Witness for C8: two concrete successful uploads of hash aa, the second
without the executable payload, leave exactly one stored executable. -/
theorem upload_twice_single_executable_witness :
    countKey
      (indexCoreHandler
        ⟨none, Except.ok ⟨6, "h2", false, "aa", "/bin/x", [], "v1", []⟩, none,
          Except.ok 4, none, Except.ok 9, none⟩
        (indexCoreHandler
          ⟨none, Except.ok ⟨5, "h1", true, "aa", "/bin/x", [], "v1", []⟩, none,
            Except.ok 4, none, Except.ok 9, none⟩
          ⟨0, [], [], []⟩).state).state.executables "aa" = 1 := by
  obtain ⟨c1, c2, he1, he2, hne, hl1, hl2, hcnt⟩ := upload_twice_single_executable
    ⟨none, Except.ok ⟨5, "h1", true, "aa", "/bin/x", [], "v1", []⟩, none,
      Except.ok 4, none, Except.ok 9, none⟩
    ⟨none, Except.ok ⟨6, "h2", false, "aa", "/bin/x", [], "v1", []⟩, none,
      Except.ok 4, none, Except.ok 9, none⟩
    ⟨0, [], [], []⟩
    ⟨5, "h1", true, "aa", "/bin/x", [], "v1", []⟩
    ⟨6, "h2", false, "aa", "/bin/x", [], "v1", []⟩
    "aa" 4 9 4 9 rfl rfl rfl rfl rfl rfl rfl rfl rfl rfl rfl rfl rfl rfl rfl rfl rfl
    (by decide)
  exact hcnt

/-! ### Analysis pipeline (analyze_process.go: init, computeSizes,
detectLanguage, extractStackTrace, indexResults, cleanup; driven by
service.analyze in bin/rcoredumpd/main.go) -/

/-- Outcomes of the external effects touched by one analysis run: the ELF
parse of the stored executable (section name list, or a parse failure), the
combined output of the external debugger command, and the index write. -/
structure AnalyzeEnv where
  elfSections : Option (List String)
  execResult : Except String String
  indexErr : Option String
  deriving Repr, DecidableEq

/-- The analyzeProcess accumulator: the analyzer command table (modelled by
the list of languages that have a registered template), the uid under
analysis, the document being completed, and the short-circuiting error. -/
structure AnalyzeProcess where
  analyzers : List String
  uid : String
  core : Coredump
  err : Option String
  deriving Repr, DecidableEq

/-- analyzeProcess.init: load the document from the index with a fresh read,
then open the executable and the core file from the store.  The error wrap
texts follow the source (which swaps the two open messages). -/
def apInit (p : AnalyzeProcess) (st : ServerState) : AnalyzeProcess :=
  match p.err with
  | some _ => p
  | none =>
    match lookupA st.docs p.uid with
    | none => { p with err := some "finding indexed core: not found" }
    | some c =>
      match lookupA st.executables c.executableHash with
      | none =>
        { p with
            core := c,
            err := some "opening core file: no such file or directory" }
      | some _ =>
        match lookupA st.cores p.uid with
        | none =>
          { p with
              core := c,
              err := some "opening executable file: no such file or directory" }
        | some _ => { p with core := c }

/-- analyzeProcess.computeSizes: stat both stored files and record their
sizes on the document. -/
def apComputeSizes (p : AnalyzeProcess) (st : ServerState) : AnalyzeProcess :=
  match p.err with
  | some _ => p
  | none =>
    match lookupA st.cores p.uid with
    | none => { p with err := some "sizing core file: no such file or directory" }
    | some n =>
      match lookupA st.executables p.core.executableHash with
      | none =>
        { p with
            core := { p.core with size := n },
            err := some "sizing executable file: no such file or directory" }
      | some m => { p with core := { p.core with size := n, executableSize := m } }

/-- The section scan of analyzeProcess.detectLanguage: the language starts
as C and flips to Go at the first section named .go.buildinfo. -/
def detectLang : List String → String
  | [] => LangC
  | s :: rest => if s == ".go.buildinfo" then LangGo else detectLang rest

/-- analyzeProcess.detectLanguage: parse the executable as ELF and scan its
section names. -/
def apDetectLanguage (env : AnalyzeEnv) (p : AnalyzeProcess) : AnalyzeProcess :=
  match p.err with
  | some _ => p
  | none =>
    match env.elfSections with
    | none => { p with err := some "opening executable file: bad magic number" }
    | some secs => { p with core := { p.core with lang := detectLang secs } }

/-- analyzeProcess.extractStackTrace: when the detected language has a
registered command template, render and execute it and store the combined
output as the trace; when it has none, log a warning and skip without
recording an error. -/
def apExtractStackTrace (env : AnalyzeEnv) (p : AnalyzeProcess) : AnalyzeProcess :=
  match p.err with
  | some _ => p
  | none =>
    if p.analyzers.contains p.core.lang then
      match env.execResult with
      | Except.error e => { p with err := some ("extracting stack trace: " ++ e) }
      | Except.ok out => { p with core := { p.core with trace := out } }
    else p

/-- analyzeProcess.indexResults: mark the document analyzed and write it
back to the index under its uid. -/
def apIndexResults (env : AnalyzeEnv) (p : AnalyzeProcess) (st : ServerState) :
    AnalyzeProcess × ServerState :=
  match p.err with
  | some _ => (p, st)
  | none =>
    let core := { p.core with analyzed := true }
    match env.indexErr with
    | some e => ({ p with core := core, err := some ("indexing results: " ++ e) }, st)
    | none => ({ p with core := core }, { st with docs := upsertA st.docs core.uid core })

/-- service.analyze: the strictly sequential stage chain; cleanup only
closes file handles and is the identity here. -/
def analyze (analyzers : List String) (env : AnalyzeEnv) (st : ServerState)
    (uid : String) : AnalyzeProcess × ServerState :=
  let p0 : AnalyzeProcess := ⟨analyzers, uid, Coredump.zero, none⟩
  let p1 := apInit p0 st
  let p2 := apComputeSizes p1 st
  let p3 := apDetectLanguage env p2
  let p4 := apExtractStackTrace env p3
  apIndexResults env p4 st

theorem detectLang_eq_contains (l : List String) :
    detectLang l = if l.contains ".go.buildinfo" then LangGo else LangC := by
  induction l with
  | nil => rfl
  | cons s rest ih =>
    by_cases h : s = ".go.buildinfo"
    · subst h
      simp [detectLang, List.contains, List.elem]
    · have h1 : (s == ".go.buildinfo") = false := beq_eq_false_iff_ne.mpr h
      have h2 : (".go.buildinfo" == s) = false := beq_eq_false_iff_ne.mpr (Ne.symm h)
      simp [detectLang, h1, List.contains, List.elem, h2] at ih ⊢
      exact ih

/-- C7: For every coredump that reaches language detection, the language
field is set to Go if the executable ELF section list contains a section
named .go.buildinfo, and to C otherwise. -/
theorem detectLanguage_go_iff_buildinfo (env : AnalyzeEnv) (p : AnalyzeProcess)
    (secs : List String) (hp : p.err = none) (hs : env.elfSections = some secs) :
    (apDetectLanguage env p).core.lang
      = (if secs.contains ".go.buildinfo" then LangGo else LangC)
    ∧ (apDetectLanguage env p).err = none := by
  constructor
  · simp [apDetectLanguage, hp, hs, detectLang_eq_contains]
  · simp [apDetectLanguage, hp, hs]

/-- Witness for C7: a section list with and a section list without the Go
build info section. -/
theorem detectLanguage_go_iff_buildinfo_witness :
    (apDetectLanguage ⟨some [".text", ".go.buildinfo"], Except.ok "", none⟩
        ⟨[], "u", Coredump.zero, none⟩).core.lang = LangGo
    ∧ (apDetectLanguage ⟨some [".text", ".data"], Except.ok "", none⟩
        ⟨[], "u", Coredump.zero, none⟩).core.lang = LangC := by
  constructor
  · have h := detectLanguage_go_iff_buildinfo
      ⟨some [".text", ".go.buildinfo"], Except.ok "", none⟩
      ⟨[], "u", Coredump.zero, none⟩ [".text", ".go.buildinfo"] rfl rfl
    rw [h.1]
    decide
  · have h := detectLanguage_go_iff_buildinfo
      ⟨some [".text", ".data"], Except.ok "", none⟩
      ⟨[], "u", Coredump.zero, none⟩ [".text", ".data"] rfl rfl
    rw [h.1]
    decide

theorem apIndexResults_err_docs (env : AnalyzeEnv) (p : AnalyzeProcess) (st : ServerState)
    (e : String) (h : (apIndexResults env p st).1.err = some e) :
    (apIndexResults env p st).2.docs = st.docs := by
  unfold apIndexResults at h ⊢
  cases hp : p.err with
  | some x => rfl
  | none =>
    cases hi : env.indexErr with
    | some x => rfl
    | none => rw [hp, hi] at h; simp at h

/-- C5: For every analysis run, the document is re-indexed with
analyzed equal true exactly when no stage recorded an error; a detected
language with no registered command template is not an error (trace
extraction is skipped and the document is still marked analyzed), while an
error at any stage skips the index write and leaves the document with
analyzed equal false. -/
theorem analyze_marks_analyzed_iff_no_error
    (analyzers : List String) (env : AnalyzeEnv) (st : ServerState) (uid : String)
    (c0 : Coredump) (hdoc : lookupA st.docs uid = some c0) (huid : c0.uid = uid)
    (hA : c0.analyzed = false) :
    (((analyze analyzers env st uid).1.err = none) ↔
      (∃ c', lookupA (analyze analyzers env st uid).2.docs uid = some c'
        ∧ c'.analyzed = true))
    ∧ (∀ e, (analyze analyzers env st uid).1.err = some e →
        (analyze analyzers env st uid).2.docs = st.docs)
    ∧ (∀ secs, env.elfSections = some secs →
        analyzers.contains (detectLang secs) = false →
        env.indexErr = none →
        (∃ m, lookupA st.executables c0.executableHash = some m) →
        (∃ n, lookupA st.cores uid = some n) →
        (analyze analyzers env st uid).1.err = none
        ∧ ∃ c', lookupA (analyze analyzers env st uid).2.docs uid = some c'
            ∧ c'.analyzed = true ∧ c'.trace = c0.trace) := by
  subst huid
  cases hex : lookupA st.executables c0.executableHash with
  | none =>
    simp [analyze, apInit, apComputeSizes, apDetectLanguage, apExtractStackTrace,
      apIndexResults, hdoc, hex, hA]
  | some m =>
    cases hco : lookupA st.cores c0.uid with
    | none =>
      simp [analyze, apInit, apComputeSizes, apDetectLanguage, apExtractStackTrace,
        apIndexResults, hdoc, hex, hco, hA]
    | some n =>
      cases hsec : env.elfSections with
      | none =>
        simp [analyze, apInit, apComputeSizes, apDetectLanguage, apExtractStackTrace,
          apIndexResults, hdoc, hex, hco, hsec, hA]
      | some secs =>
        cases hcont : analyzers.contains (detectLang secs) with
        | false =>
          have hmem : ¬ detectLang secs ∈ analyzers := by simpa using hcont
          cases hidx : env.indexErr with
          | some e =>
            simp [analyze, apInit, apComputeSizes, apDetectLanguage, apExtractStackTrace,
              apIndexResults, hdoc, hex, hco, hsec, hmem, hidx, hA]
          | none =>
            simp [analyze, apInit, apComputeSizes, apDetectLanguage, apExtractStackTrace,
              apIndexResults, hdoc, hex, hco, hsec, hmem, hidx, hA,
              lookupA_upsertA_self]
        | true =>
          have hmem : detectLang secs ∈ analyzers := by simpa using hcont
          cases hrun : env.execResult with
          | error e =>
            simp [analyze, apInit, apComputeSizes, apDetectLanguage, apExtractStackTrace,
              apIndexResults, hdoc, hex, hco, hsec, hmem, hcont, hrun, hA]
          | ok out =>
            cases hidx : env.indexErr with
            | some e =>
              simp [analyze, apInit, apComputeSizes, apDetectLanguage, apExtractStackTrace,
                apIndexResults, hdoc, hex, hco, hsec, hmem, hcont, hrun, hidx, hA]
            | none =>
              simp [analyze, apInit, apComputeSizes, apDetectLanguage, apExtractStackTrace,
                apIndexResults, hdoc, hex, hco, hsec, hmem, hcont, hrun, hidx, hA,
                lookupA_upsertA_self]

/-- Witness for C5: a run over a one-document index whose detected language
has no registered analyzer finishes without error. -/
theorem analyze_marks_analyzed_iff_no_error_witness :
    (analyze [] ⟨some [".text"], Except.ok "tr", none⟩
      ⟨0, [("u", { Coredump.zero with uid := "u", executableHash := "aa" })],
        [("u", 3)], [("aa", 4)]⟩ "u").1.err = none := by
  have h := analyze_marks_analyzed_iff_no_error []
    ⟨some [".text"], Except.ok "tr", none⟩
    ⟨0, [("u", { Coredump.zero with uid := "u", executableHash := "aa" })],
      [("u", 3)], [("aa", 4)]⟩ "u"
    { Coredump.zero with uid := "u", executableHash := "aa" }
    (by decide) rfl rfl
  exact (h.2.2 [".text"] rfl (by decide) rfl ⟨4, by decide⟩ ⟨3, by decide⟩).1

/-! ### Cleanup process (cleanupProcess: cleanIndex, cleanStore,
canCleanExecutable, cleanExecutable).  The worker loop that drives one
cleanup is not under src/, so the driver below is modelled from the spec. -/

/-- The cleanupProcess accumulator: the document being removed and the
short-circuiting error. -/
structure CleanupProcess where
  core : Coredump
  err : Option String
  deriving Repr, DecidableEq

/-- cleanupProcess.cleanIndex: delete the indexed document; the bleve delete
of an id is not an error when the id is absent. -/
def cpCleanIndex (p : CleanupProcess) (st : ServerState) : CleanupProcess × ServerState :=
  match p.err with
  | some _ => (p, st)
  | none =>
    (p, { st with docs := st.docs.filter (fun kv => !(kv.1 == p.core.uid)) })

/-- cleanupProcess.cleanStore: remove the core file; os.Remove fails when
the file is missing. -/
def cpCleanStore (p : CleanupProcess) (st : ServerState) : CleanupProcess × ServerState :=
  match p.err with
  | some _ => (p, st)
  | none =>
    if st.cores.any (fun kv => kv.1 == p.core.uid) then
      (p, { st with cores := st.cores.filter (fun kv => !(kv.1 == p.core.uid)) })
    else
      ({ p with err := some "removing coredump file: no such file or directory" }, st)

/-- Total count returned by the index search for the phrase query
executable_hash:"hash": the number of indexed documents whose hash field
equals the hash (spec section 3: referenced means at least one Coredump
with matching executable_hash exists in the index). -/
def searchExecutableHashTotal (docs : List (String × Coredump)) (hash : String) : Nat :=
  (docs.filter (fun kv => kv.2.executableHash == hash)).length

/-- cleanupProcess.canCleanExecutable: false on a prior error, otherwise
search the index for documents still referencing the hash with a
zero-size page and compare the total against zero. -/
def cpCanCleanExecutable (p : CleanupProcess) (st : ServerState) : Bool :=
  match p.err with
  | some _ => false
  | none => searchExecutableHashTotal st.docs p.core.executableHash == 0

/-- cleanupProcess.cleanExecutable: remove the stored executable blob;
os.Remove fails when the file is missing. -/
def cpCleanExecutable (p : CleanupProcess) (st : ServerState) :
    CleanupProcess × ServerState :=
  match p.err with
  | some _ => (p, st)
  | none =>
    if st.executables.any (fun kv => kv.1 == p.core.executableHash) then
      (p, { st with executables :=
        st.executables.filter (fun kv => !(kv.1 == p.core.executableHash)) })
    else
      ({ p with err := some "removing executable file: no such file or directory" }, st)

/-- Modelled from the spec: the per-core cleanup driver (the worker loop of
the current bin/rcoredumpd/main.go is not under src/).  Spec section 4.5:
delete the index row, delete the core file, then reclaim the executable
exactly when the search reports no remaining referencing document. -/
def cleanupCore (st : ServerState) (c : Coredump) : CleanupProcess × ServerState :=
  let p0 : CleanupProcess := ⟨c, none⟩
  let r1 := cpCleanIndex p0 st
  let r2 := cpCleanStore r1.1 r1.2
  if cpCanCleanExecutable r2.1 r2.2 then cpCleanExecutable r2.1 r2.2 else r2

/-- Helper for C1: a referenced executable is kept. -/
theorem cleanup_keeps_referenced_executable (st : ServerState) (c : Coredump)
    (href : (st.docs.any
      (fun kv => !(kv.1 == c.uid) && kv.2.executableHash == c.executableHash)) = true) :
    (cleanupCore st c).2.executables = st.executables := by
  have hcount : searchExecutableHashTotal
      (st.docs.filter (fun kv => !(kv.1 == c.uid))) c.executableHash ≠ 0 := by
    unfold searchExecutableHashTotal
    rw [List.any_eq_true] at href
    obtain ⟨kv, hkv, hp⟩ := href
    rw [Bool.and_eq_true] at hp
    intro hzero
    rw [List.length_eq_zero] at hzero
    have : kv ∈ List.filter (fun kv => kv.2.executableHash == c.executableHash)
        (List.filter (fun kv => !(kv.1 == c.uid)) st.docs) := by
      rw [List.mem_filter]
      exact ⟨List.mem_filter.mpr ⟨hkv, hp.1⟩, hp.2⟩
    rw [hzero] at this
    cases this
  unfold cleanupCore cpCleanIndex cpCleanStore cpCanCleanExecutable
  simp only []
  split
  case isTrue hcores =>
    rw [if_neg]
    intro hc
    rw [beq_iff_eq] at hc
    exact hcount hc
  case isFalse hcores =>
    rw [if_neg]
    intro hc
    cases hc

/-- Helper for C1: on the normal path (the core file is present, so
cleanStore succeeds) with no remaining referencing document, the executable
entry is removed. -/
theorem cleanup_reclaims_unreferenced_executable (st : ServerState) (c : Coredump)
    (hcore : (st.cores.any (fun kv => kv.1 == c.uid)) = true)
    (hnoref : (st.docs.any
      (fun kv => !(kv.1 == c.uid) && kv.2.executableHash == c.executableHash)) = false) :
    (cleanupCore st c).2.executables
      = st.executables.filter (fun kv => !(kv.1 == c.executableHash)) := by
  have hcount : searchExecutableHashTotal
      (st.docs.filter (fun kv => !(kv.1 == c.uid))) c.executableHash = 0 := by
    unfold searchExecutableHashTotal
    rw [List.length_eq_zero, List.eq_nil_iff_forall_not_mem]
    intro kv hkv
    rw [List.mem_filter] at hkv
    obtain ⟨hk1, hk2⟩ := hkv
    rw [List.mem_filter] at hk1
    have hfalse := List.any_eq_false.mp hnoref kv hk1.1
    rw [Bool.and_eq_true] at hfalse
    exact hfalse ⟨hk1.2, hk2⟩
  unfold cleanupCore cpCleanIndex cpCleanStore cpCanCleanExecutable cpCleanExecutable
  simp only []
  rw [if_pos hcore, if_pos (beq_iff_eq.mpr hcount)]
  simp only []
  cases hany : st.executables.any (fun kv => kv.1 == c.executableHash) with
  | true => simp
  | false =>
    simp only [Bool.false_eq_true, if_false]
    have hfil : ∀ kv ∈ st.executables, (!(kv.1 == c.executableHash)) = true := by
      intro kv hkv
      have h0 := List.any_eq_false.mp hany kv hkv
      have h1 : (kv.1 == c.executableHash) = false := Bool.eq_false_iff.mpr h0
      rw [h1]
      rfl
    exact (List.filter_eq_self.mpr hfil).symm

/-- C1: For every coredump processed by the cleanup worker, the executable
blob stored under its executable_hash is deleted only when the index search
for the hash reports zero total matches after the document itself was
removed; if at least one indexed coredump still references the hash, the
executable file is kept, and on the normal path with no remaining reference
it is deleted. -/
theorem cleanup_executable_only_when_unreferenced (st : ServerState) (c : Coredump) :
    ((st.docs.any
        (fun kv => !(kv.1 == c.uid) && kv.2.executableHash == c.executableHash)) = true →
      (cleanupCore st c).2.executables = st.executables)
    ∧ ((st.cores.any (fun kv => kv.1 == c.uid)) = true →
      (st.docs.any
        (fun kv => !(kv.1 == c.uid) && kv.2.executableHash == c.executableHash)) = false →
      (cleanupCore st c).2.executables
        = st.executables.filter (fun kv => !(kv.1 == c.executableHash))) :=
  ⟨cleanup_keeps_referenced_executable st c,
   cleanup_reclaims_unreferenced_executable st c⟩

/-- Witness for C1: a two-document index where a second coredump still
references hash aa keeps the blob, while a lone coredump reclaims it. -/
theorem cleanup_executable_only_when_unreferenced_witness :
    (cleanupCore
      ⟨0, [("u1", { Coredump.zero with uid := "u1", executableHash := "aa" }),
           ("u2", { Coredump.zero with uid := "u2", executableHash := "aa" })],
        [("u1", 3), ("u2", 4)], [("aa", 9)]⟩
      { Coredump.zero with uid := "u1", executableHash := "aa" }).2.executables
      = [("aa", (9 : Int))]
    ∧ (cleanupCore
      ⟨0, [("u1", { Coredump.zero with uid := "u1", executableHash := "aa" })],
        [("u1", 3)], [("aa", 9)]⟩
      { Coredump.zero with uid := "u1", executableHash := "aa" }).2.executables = [] := by
  constructor
  · exact (cleanup_executable_only_when_unreferenced
      ⟨0, [("u1", { Coredump.zero with uid := "u1", executableHash := "aa" }),
           ("u2", { Coredump.zero with uid := "u2", executableHash := "aa" })],
        [("u1", 3), ("u2", 4)], [("aa", 9)]⟩
      { Coredump.zero with uid := "u1", executableHash := "aa" }).1 (by decide)
  · have h := (cleanup_executable_only_when_unreferenced
      ⟨0, [("u1", { Coredump.zero with uid := "u1", executableHash := "aa" })],
        [("u1", 3)], [("aa", 9)]⟩
      { Coredump.zero with uid := "u1", executableHash := "aa" }).2 (by decide) (by decide)
    rw [h]
    decide

/-! ### Field-level index model (BleveIndex.Index and BleveIndex.Find):
metadata flattening into meta.key fields and reassembly at read time -/

/-- Value of a stored bleve field, as far as the metadata loop inspects it:
either a string, or any non-string value (numbers, booleans, times, nested
values), which the loop rejects for meta fields. -/
inductive FieldValue where
  | str (s : String)
  | other
  deriving Repr, DecidableEq

/-- structmapper.ToMap over the json tags of Coredump: every field under its
json tag, string-typed fields as strings, the rest abstracted.  No json tag
starts with the five characters meta dot. -/
def Coredump.toFieldMap (c : Coredump) : List (String × FieldValue) :=
  [("analyzed", FieldValue.other),
   ("analyzed_at", FieldValue.other),
   ("dumped_at", FieldValue.other),
   ("executable", FieldValue.str c.executable),
   ("executable_hash", FieldValue.str c.executableHash),
   ("executable_path", FieldValue.str c.executablePath),
   ("executable_size", FieldValue.other),
   ("forwarder_version", FieldValue.str c.forwarderVersion),
   ("hostname", FieldValue.str c.hostname),
   ("indexer_version", FieldValue.str c.indexerVersion),
   ("lang", FieldValue.str c.lang),
   ("links", FieldValue.other),
   ("metadata", FieldValue.other),
   ("size", FieldValue.other),
   ("trace", FieldValue.str c.trace),
   ("uid", FieldValue.str c.uid)]

/-- BleveIndex.Index: map the struct, add one meta.key field per metadata
entry, and store the field map under the document uid. -/
def bleveIndexDoc (ist : List (String × List (String × FieldValue))) (c : Coredump) :
    List (String × List (String × FieldValue)) :=
  upsertA ist c.uid
    (c.toFieldMap ++ c.metadata.map (fun kv => ("meta." ++ kv.1, FieldValue.str kv.2)))

/-- The metadata loop of BleveIndex.Find: walk the returned fields, keep the
ones prefixed meta. with the prefix trimmed, and fail on the first such
field holding a non-string value. -/
def rebuildMeta : List (String × FieldValue) → Except String (List (String × String))
  | [] => Except.ok []
  | (k, v) :: rest =>
    if goHasPrefix k "meta." then
      match v with
      | FieldValue.str s =>
        match rebuildMeta rest with
        | Except.error e => Except.error e
        | Except.ok l => Except.ok ((goTrimPrefix k "meta.", s) :: l)
      | FieldValue.other =>
        Except.error ("unexpected type for metadata value " ++ k)
    else rebuildMeta rest

/-- String read-back of one stored field, used to model structmapper's
ToStruct for the string-typed struct fields. -/
def fieldStr (fields : List (String × FieldValue)) (k : String) : String :=
  match lookupA fields k with
  | some (FieldValue.str s) => s
  | _ => ""

/-- structmapper.ToStruct modelled on the string-typed fields of Coredump;
the numeric, boolean and time fields are abstracted by this model. -/
def coredumpFromFields (fields : List (String × FieldValue)) : Coredump :=
  { Coredump.zero with
      uid := fieldStr fields "uid",
      executable := fieldStr fields "executable",
      executableHash := fieldStr fields "executable_hash",
      executablePath := fieldStr fields "executable_path",
      forwarderVersion := fieldStr fields "forwarder_version",
      hostname := fieldStr fields "hostname",
      indexerVersion := fieldStr fields "indexer_version",
      lang := fieldStr fields "lang",
      trace := fieldStr fields "trace" }

/-- BleveIndex.Find: fetch the document by id, map the fields back to the
struct, then reassemble the fields prefixed meta. into the metadata map,
failing when any of them holds a non-string value. -/
def bleveFind (ist : List (String × List (String × FieldValue))) (uid : String) :
    Except String Coredump :=
  match lookupA ist uid with
  | none => Except.error "not found"
  | some fields =>
    match rebuildMeta fields with
    | Except.error e => Except.error e
    | Except.ok md => Except.ok { coredumpFromFields fields with metadata := md }

theorem rebuildMeta_append_skip (l rest : List (String × FieldValue))
    (h : ∀ e ∈ l, goHasPrefix e.1 "meta." = false) :
    rebuildMeta (l ++ rest) = rebuildMeta rest := by
  induction l with
  | nil => rfl
  | cons e es ih =>
    obtain ⟨k, v⟩ := e
    have hk := h (k, v) (List.mem_cons_self _ _)
    simp only [List.cons_append, rebuildMeta, hk, Bool.false_eq_true, if_false]
    exact ih (fun x hx => h x (List.mem_cons_of_mem _ hx))

theorem toFieldMap_no_meta (c : Coredump) :
    ∀ e ∈ c.toFieldMap, goHasPrefix e.1 "meta." = false := by
  intro e he
  simp only [Coredump.toFieldMap, List.mem_cons, List.not_mem_nil, or_false] at he
  rcases he with rfl|rfl|rfl|rfl|rfl|rfl|rfl|rfl|rfl|rfl|rfl|rfl|rfl|rfl|rfl|rfl <;> rfl

theorem rebuildMeta_flat (md : List (String × String)) :
    rebuildMeta (md.map (fun kv => ("meta." ++ kv.1, FieldValue.str kv.2)))
      = Except.ok md := by
  induction md with
  | nil => rfl
  | cons kv rest ih =>
    obtain ⟨k, v⟩ := kv
    simp only [List.map_cons, rebuildMeta, goHasPrefix_append, if_pos, ih,
      goTrimPrefix_append]

theorem rebuildMeta_error_of_bad (fields : List (String × FieldValue)) :
    (∃ k, (k, FieldValue.other) ∈ fields ∧ goHasPrefix k "meta." = true) →
    ∃ msg, rebuildMeta fields = Except.error msg := by
  induction fields with
  | nil =>
    rintro ⟨k, hmem, _⟩
    cases hmem
  | cons e rest ih =>
    rintro ⟨k, hmem, hpre⟩
    obtain ⟨k0, v0⟩ := e
    rcases List.mem_cons.mp hmem with heq | hmem2
    · injection heq with hk hv
      subst hk
      rw [← hv]
      exact ⟨"unexpected type for metadata value " ++ k, by simp [rebuildMeta, hpre]⟩
    · obtain ⟨msg, hmsg⟩ := ih ⟨k, hmem2, hpre⟩
      by_cases hk0 : goHasPrefix k0 "meta." = true
      · cases v0 with
        | str s =>
          refine ⟨msg, ?_⟩
          simp [rebuildMeta, hk0, hmsg]
        | other =>
          exact ⟨"unexpected type for metadata value " ++ k0, by
            simp [rebuildMeta, hk0]⟩
      · refine ⟨msg, ?_⟩
        rw [Bool.not_eq_true] at hk0
        simp [rebuildMeta, hk0, hmsg]

/-- C4: indexing stores each metadata entry as a flat field named meta.key
with its string value, a subsequent Find of the same uid reassembles
exactly the fields prefixed meta. into the returned metadata map, and Find
returns an error whenever such a field holds a non-string value. -/
theorem bleve_metadata_round_trip (ist : List (String × List (String × FieldValue)))
    (c : Coredump) :
    lookupA (bleveIndexDoc ist c) c.uid
      = some (c.toFieldMap
          ++ c.metadata.map (fun kv => ("meta." ++ kv.1, FieldValue.str kv.2)))
    ∧ (∀ k v, (k, v) ∈ c.metadata →
        ("meta." ++ k, FieldValue.str v)
          ∈ c.toFieldMap
            ++ c.metadata.map (fun kv => ("meta." ++ kv.1, FieldValue.str kv.2)))
    ∧ (∃ c', bleveFind (bleveIndexDoc ist c) c.uid = Except.ok c'
        ∧ c'.metadata = c.metadata)
    ∧ (∀ uid fields, lookupA ist uid = some fields →
        (∃ k, (k, FieldValue.other) ∈ fields ∧ goHasPrefix k "meta." = true) →
        ∃ msg, bleveFind ist uid = Except.error msg) := by
  have hlook := lookupA_upsertA_self ist c.uid
    (c.toFieldMap ++ c.metadata.map (fun kv => ("meta." ++ kv.1, FieldValue.str kv.2)))
  refine ⟨hlook, ?_, ?_, ?_⟩
  · intro k v hmem
    exact List.mem_append_right _ (List.mem_map.mpr ⟨(k, v), hmem, rfl⟩)
  · have hre : rebuildMeta (c.toFieldMap
        ++ c.metadata.map (fun kv => ("meta." ++ kv.1, FieldValue.str kv.2)))
        = Except.ok c.metadata := by
      rw [rebuildMeta_append_skip _ _ (toFieldMap_no_meta c), rebuildMeta_flat]
    exact ⟨{ coredumpFromFields (c.toFieldMap
        ++ c.metadata.map (fun kv => ("meta." ++ kv.1, FieldValue.str kv.2))) with
          metadata := c.metadata },
      by simp only [bleveFind, bleveIndexDoc, hlook, hre], rfl⟩
  · intro uid fields hl hbad
    obtain ⟨msg, hmsg⟩ := rebuildMeta_error_of_bad fields hbad
    exact ⟨msg, by simp only [bleveFind, hl, hmsg]⟩

/-- Witness for C4: a document with one metadata entry round-trips, and a
corrupted field map with a non-string meta field makes Find fail. -/
theorem bleve_metadata_round_trip_witness :
    (bleveFind
        (bleveIndexDoc [] { Coredump.zero with uid := "u", metadata := [("svc", "s1")] })
        "u").isOk = true
    ∧ (bleveFind [("w", [("meta.bad", FieldValue.other)])] "w").isOk = false := by
  constructor
  · obtain ⟨c', hc', hm⟩ := (bleve_metadata_round_trip []
      { Coredump.zero with uid := "u", metadata := [("svc", "s1")] }).2.2.1
    rw [hc']
    rfl
  · obtain ⟨msg, hmsg⟩ := (bleve_metadata_round_trip
      [("w", [("meta.bad", FieldValue.other)])]
      { Coredump.zero with uid := "u", metadata := [("svc", "s1")] }).2.2.2
      "w" [("meta.bad", FieldValue.other)] (by decide)
      ⟨"meta.bad", by decide, by decide⟩
    rw [hmsg]
    rfl

/-! ### Forwarder library resolver (pkg/elfx, current revision with
DT_RPATH and DT_RUNPATH support).  The file system, path joining and token
expansion are abstracted as environment functions; stat errors other than
not-exist and expansion failures are outside this model. -/

/-- Environment of the resolver: file existence (os.Stat), token expansion
(File.Expand for ORIGIN, LIB, PLATFORM), path joining (filepath.Join),
directory of a path (filepath.Dir), the parsed LD_LIBRARY_PATH entries
(LibraryPathDirs) and the compile-time default directories (DefaultDirs). -/
structure ElfxEnv where
  fileExists : String → Bool
  expandDir : String → String
  joinPath : String → String → String
  dirOf : String → String
  ldLibraryPath : List String
  defaultDirs : List String

/-- The opening ELF file as the resolver sees it: its absolute path and the
DT_RUNPATH and DT_RPATH entries of its dynamic section. -/
structure ElfxFile where
  path : String
  runpath : List String
  rpath : List String
  deriving Repr, DecidableEq

/-- Models Go strings.Contains for the slash test. -/
def containsSlash (s : String) : Bool :=
  s.data.contains '/'

/-- Models Go filepath.IsAbs on unix: the path starts with a slash. -/
def isAbsPath (s : String) : Bool :=
  goHasPrefix s "/"

/-- Inner loop of ResolveImportedLibrary: expand each directory, join the
library name, and return the first path that exists. -/
def searchDirList (env : ElfxEnv) (library : String) : List String → Option String
  | [] => none
  | dir :: rest =>
    let p := env.joinPath (env.expandDir dir) library
    if env.fileExists p then some p else searchDirList env library rest

/-- Outer loop of ResolveImportedLibrary over the directory groups. -/
def searchDirGroups (env : ElfxEnv) (library : String) :
    List (List String) → Option String
  | [] => none
  | dirs :: groups =>
    match searchDirList env library dirs with
    | some p => some p
    | none => searchDirGroups env library groups

/-- File.ResolveImportedLibrary from pkg/elfx: DT_RUNPATH is read first and
the deprecated DT_RPATH only when DT_RUNPATH is empty; a name containing a
slash is treated as a path; otherwise the directory groups are searched in
the order rpath, LD_LIBRARY_PATH, runpath, defaults. -/
def resolveImportedLibrary (env : ElfxEnv) (f : ElfxFile) (library : String) :
    String × Bool :=
  let runpath := f.runpath
  let rpath := if runpath.isEmpty then f.rpath else []
  if containsSlash library then
    if isAbsPath library then (library, env.fileExists library)
    else
      let p := env.joinPath (env.dirOf f.path) library
      (p, env.fileExists p)
  else
    match searchDirGroups env library
        [rpath, env.ldLibraryPath, runpath, env.defaultDirs] with
    | some p => (p, true)
    | none => (library, false)

/-- The search order stated by the spec sentence of C3, written from the
claim's words: always try the DT_RPATH entries, then LD_LIBRARY_PATH, then
the DT_RUNPATH entries, then the default directories, and return the first
expanded directory containing an existing file. -/
def resolveByClaimOrder (env : ElfxEnv) (f : ElfxFile) (library : String) :
    String × Bool :=
  let candidates := ([f.rpath, env.ldLibraryPath, f.runpath, env.defaultDirs].flatten).map
    (fun d => env.joinPath (env.expandDir d) library)
  match candidates.find? env.fileExists with
  | some p => (p, true)
  | none => (library, false)

/-- The amended search order: identical to the claim except that the
DT_RPATH entries are consulted only when the ELF carries no DT_RUNPATH
entry. -/
def resolveByAmendedOrder (env : ElfxEnv) (f : ElfxFile) (library : String) :
    String × Bool :=
  let rpathDirs := if f.runpath.isEmpty then f.rpath else []
  let candidates := ([rpathDirs, env.ldLibraryPath, f.runpath, env.defaultDirs].flatten).map
    (fun d => env.joinPath (env.expandDir d) library)
  match candidates.find? env.fileExists with
  | some p => (p, true)
  | none => (library, false)

theorem find?_append_or {α : Type} (l1 l2 : List α) (p : α → Bool) :
    (l1 ++ l2).find? p
      = (match l1.find? p with
         | some x => some x
         | none => l2.find? p) := by
  induction l1 with
  | nil => simp [List.find?]
  | cons a as ih =>
    cases ha : p a with
    | true => simp [List.find?, ha]
    | false => simpa [List.find?, ha] using ih

theorem searchDirList_eq_find (env : ElfxEnv) (library : String) (dirs : List String) :
    searchDirList env library dirs
      = (dirs.map (fun d => env.joinPath (env.expandDir d) library)).find? env.fileExists := by
  induction dirs with
  | nil => rfl
  | cons d rest ih =>
    cases hd : env.fileExists (env.joinPath (env.expandDir d) library) with
    | true => simp [searchDirList, List.find?, hd]
    | false => simpa [searchDirList, List.find?, hd] using ih

theorem searchDirGroups_eq_find (env : ElfxEnv) (library : String)
    (groups : List (List String)) :
    searchDirGroups env library groups
      = ((groups.flatten).map (fun d => env.joinPath (env.expandDir d) library)).find?
          env.fileExists := by
  induction groups with
  | nil => rfl
  | cons dirs rest ih =>
    unfold searchDirGroups
    rw [searchDirList_eq_find, ih, List.flatten_cons, List.map_append, find?_append_or]
    cases List.find? env.fileExists
        (List.map (fun d => env.joinPath (env.expandDir d) library) dirs) with
    | some p => rfl
    | none => rfl

/-- C3 counterexample: an ELF carrying both DT_RPATH (/a) and DT_RUNPATH
(/b), with the library present only under /a.  The claimed order resolves
it through the rpath directory; the code ignores DT_RPATH because a
DT_RUNPATH is present and reports the library as not found. -/
theorem resolve_claim_order_counterexample :
    resolveImportedLibrary
        ⟨fun p => p == "/a/libfoo.so", fun d => d, fun d l => d ++ "/" ++ l,
          fun d => d, [], []⟩
        ⟨"/x/exe", ["/b"], ["/a"]⟩ "libfoo.so"
      ≠ resolveByClaimOrder
        ⟨fun p => p == "/a/libfoo.so", fun d => d, fun d l => d ++ "/" ++ l,
          fun d => d, [], []⟩
        ⟨"/x/exe", ["/b"], ["/a"]⟩ "libfoo.so" := by
  decide

/-- C3 as amended: for every imported library name containing no slash, the
resolver returns the first existing expanded candidate in the order
DT_RPATH (consulted only when the ELF has no DT_RUNPATH entries), then
LD_LIBRARY_PATH, then DT_RUNPATH, then the compile-time defaults. -/
theorem resolveImportedLibrary_amended_order (env : ElfxEnv) (f : ElfxFile)
    (library : String) (h : containsSlash library = false) :
    resolveImportedLibrary env f library = resolveByAmendedOrder env f library := by
  unfold resolveImportedLibrary resolveByAmendedOrder
  simp only [h, Bool.false_eq_true, if_false]
  rw [searchDirGroups_eq_find]

/-- Witness for C3: the amended order applied to a concrete rpath-only ELF
resolves through the rpath directory on both sides. -/
theorem resolveImportedLibrary_amended_order_witness :
    resolveImportedLibrary
        ⟨fun p => p == "/a/libfoo.so", fun d => d, fun d l => d ++ "/" ++ l,
          fun d => d, [], []⟩
        ⟨"/x/exe", [], ["/a"]⟩ "libfoo.so"
      = resolveByAmendedOrder
        ⟨fun p => p == "/a/libfoo.so", fun d => d, fun d l => d ++ "/" ++ l,
          fun d => d, [], []⟩
        ⟨"/x/exe", [], ["/a"]⟩ "libfoo.so" :=
  resolveImportedLibrary_amended_order _ _ "libfoo.so" (by decide)

end RCoredump